import Mathlib

/-!
Verification of the `llama-swap-to-run` configuration generator.

This file gives a shallow embedding of `src/create_locals.py` (the current
generator variant; `src/create.py` is the older variant whose loader agrees
with it on the parts verified here), and proves the frozen claims about it.

Modelling conventions:
* A text file is modelled as its list of lines (`List String`); Python
  `str.splitlines` is outside the model.
* Python `str` operations are re-implemented structurally over `List Char`
  so that all definitions compute by kernel reduction.  ASCII approximations
  are used for `.strip()`, `.lower()` and `\d` (the inputs of this program
  are ASCII command/CSV text).
* `csv.DictReader` is modelled for unquoted fields: a record is the split of
  a line on `','`, and column access pairs the header with the fields
  (missing fields read as `None`, i.e. `Option.none`; a duplicated header
  column resolves, like `dict(zip(...))`, to its last occurrence).
* Python `dict` is modelled as an association list with unique keys, in
  insertion order; assignment to an existing key replaces the value in place.
* `sys.exit`/uncaught exceptions are modelled by the `ScriptResult` sum; the
  on-disk document appears in the result only when the script reaches its
  single write, so error results leave the document untouched by
  construction.
-/

namespace LlamaSwap

/-! ### Python string primitives -/

/-- Characters stripped by Python `str.strip()` (ASCII whitespace). -/
def pySpace (c : Char) : Bool :=
  c = ' ' || c = '\t' || c = '\n' || c = '\x0d' || c = '\x0b' || c = '\x0c'

/-- Python `str.lstrip()`. -/
def pyLstrip (s : String) : String :=
  String.mk (s.data.dropWhile pySpace)

/-- Python `str.strip()`. -/
def pyStrip (s : String) : String :=
  String.mk (((s.data.dropWhile pySpace).reverse.dropWhile pySpace).reverse)

/-- Python `str.lower()` (ASCII). -/
def pyLower (s : String) : String :=
  String.mk (s.data.map Char.toLower)

/-- Split on a single-character separator, keeping empty pieces, as Python
`str.split(sep)` with a one-character `sep` does.  `splitOnChar c []` is
`[[]]`, matching `"".split(sep) == [""]`. -/
def splitOnChar (c : Char) : List Char → List (List Char)
  | [] => [[]]
  | x :: xs =>
    let r := splitOnChar c xs
    if x = c then [] :: r
    else
      match r with
      | h :: t => (x :: h) :: t
      | [] => [[x]]

/-- Re-join pieces with a one-character separator (inverse of `splitOnChar`). -/
def joinWithChar (c : Char) : List (List Char) → List Char
  | [] => []
  | [x] => x
  | x :: xs => x ++ c :: joinWithChar c xs

/-- Python `sep in s` for a one-character `sep`. -/
def strContains (s : String) (c : Char) : Bool :=
  s.data.contains c

/-- Python `s.endswith(pat)`. -/
def strEndsWith (s pat : String) : Bool :=
  pat.data.isSuffixOf s.data

/-- Python `s[:-n]` for `n ≤ len(s)` (drop the last `n` characters). -/
def strDropLast (s : String) (n : Nat) : String :=
  String.mk (s.data.take (s.data.length - n))

/-- Occurrence of `needle` as a contiguous subsequence of `hay`. -/
def containsSeq (needle : List Char) : List Char → Bool
  | [] => needle.isPrefixOf []
  | c :: rest => needle.isPrefixOf (c :: rest) || containsSeq needle rest

/-- Substring containment test used for Python `needle in hay` with a
multi-character needle. -/
def strSubstr (needle hay : String) : Bool :=
  containsSeq needle.data hay.data

/-- Digit-string to number accumulator; `chVal a ds` folds decimal digits
`ds` onto the accumulator `a`.  Used to invert `Nat.repr`. -/
def chVal : Nat → List Char → Nat
  | a, [] => a
  | a, c :: t => chVal (10 * a + (c.toNat - '0'.toNat)) t

/-- Python `str(i)` for `int` values. -/
def pyStrInt : Int → String
  | Int.ofNat n => Nat.repr n
  | Int.negSucc n => "-" ++ Nat.repr (n + 1)

/-- Decimal digit run to `Nat` (helper for Python `int(...)`). -/
def pyIntNat (l : List Char) : Option Nat :=
  if l ≠ [] ∧ l.all Char.isDigit then
    some (chVal 0 l)
  else none

/-- Python `int(s)` on an already-stripped string: optional sign followed by
a non-empty digit run (the underscore/unicode-digit liberties of CPython are
outside the model); `none` models the `ValueError` raised otherwise. -/
def pyInt (s : String) : Option Int :=
  match s.data with
  | '-' :: rest => (pyIntNat rest).map (fun n => -(n : Int))
  | '+' :: rest => (pyIntNat rest).map (fun n => (n : Int))
  | l => (pyIntNat l).map (fun n => (n : Int))

/-! ### CSV records (`csv.DictReader` on unquoted fields) -/

/-- One CSV line split into fields (unquoted-field model of the `csv`
module's default dialect). -/
def parseCsvLine (ln : String) : List String :=
  (splitOnChar ',' ln.data).map String.mk

/-- Index of the last occurrence of `col` in the header, as
`dict(zip(fieldnames, row))` keeps the last assignment for a duplicated
column name. -/
def lastIdxOf (header : List String) (col : String) : Option Nat :=
  ((header.enum.filter (fun p => p.2 == col)).getLast?).map (fun p => p.1)

/-- `row.get(col)` on a `DictReader` record: `none` when the column is not
in the header or the row is too short (`restval = None`). -/
def recordGet (header fields : List String) (col : String) : Option String :=
  match lastIdxOf header col with
  | some i => fields.get? i
  | none => none

/-! ### The table loader, from `load_csv_rows` (src/create_locals.py:36-65).
Spec-to-source column names: `identifier` is `id`, `repository_reference` is
`repo`, `requested_context_size` is `hf_ctx_size`, `applied_context_size` is
`applied_ctx_size`. -/

/-- One table record (`rows_local` element), src/create_locals.py:58-64. -/
structure Row where
  id : String
  repo : String
  applied : Int
  hf : String
  embedder : Bool
deriving DecidableEq, Repr

/-- Fatal loader outcomes: `missingColumns` is the `sys.exit(2)` at
src/create_locals.py:46; `badInt` is the uncaught `ValueError` a non-integer
`applied_ctx_size` field raises at line 61. -/
inductive LoadErr where
  | missingColumns
  | badInt
deriving DecidableEq, Repr

/-- Line filter of src/create_locals.py:38: drop comment lines and lines
that are blank after stripping. -/
def filteredLines (raw : List String) : List String :=
  raw.filter (fun ln => !((pyLstrip ln).data.head? == some '#') && pyStrip ln != "")

/-- The identifier fallback of src/create_locals.py:55-57: last path
component of `repo` up to the first `:`, with the text after the first `:`
of the whole reference reattached after a colon when one is present. -/
def loaderDeriveId (repo : String) : String :=
  let base := String.mk ((splitOnChar ':' ((splitOnChar '/' repo.data).getLastD [])).headD [])
  if strContains repo ':' then
    base ++ ":" ++ String.mk (joinWithChar ':' (splitOnChar ':' repo.data).tail)
  else base

/-- `int((r.get("applied_ctx_size") or "0").strip() or 0)`,
src/create_locals.py:61. -/
def parseApplied (v : Option String) : Option Int :=
  let s := match v with
    | none => "0"
    | some x => if x = "" then "0" else x
  let s := pyStrip s
  if s = "" then some 0 else pyInt s

/-- Loop body of src/create_locals.py:48-64 for one record; `ok none` is the
silent `continue` for an empty repository reference. -/
def rowOfRecord (fieldnames fields : List String) : Except LoadErr (Option Row) :=
  let repo := pyStrip ((recordGet fieldnames fields "repo").getD "")
  if repo = "" then Except.ok none
  else
    let id_raw := pyStrip ((recordGet fieldnames fields "id").getD "")
    let id_raw := if id_raw = "" then loaderDeriveId repo else id_raw
    match parseApplied (recordGet fieldnames fields "applied_ctx_size") with
    | none => Except.error LoadErr.badInt
    | some applied =>
      Except.ok (some
        { id := id_raw
          repo := repo
          applied := applied
          hf := pyStrip ((recordGet fieldnames fields "hf_ctx_size").getD "")
          embedder := pyLower (pyStrip ((recordGet fieldnames fields "embedder").getD "")) == "embedder" })

/-- Fold of the loader loop over the data lines. -/
def loadRowsAux (fieldnames : List String) : List String → Except LoadErr (List Row)
  | [] => Except.ok []
  | ln :: rest =>
    match rowOfRecord fieldnames (parseCsvLine ln) with
    | Except.error e => Except.error e
    | Except.ok none => loadRowsAux fieldnames rest
    | Except.ok (some r) => (loadRowsAux fieldnames rest).map (fun rs => r :: rs)

/-- `load_csv_rows` (src/create_locals.py:36-65): filter lines, check the
required columns `repo` and `applied_ctx_size` against the header, then read
the records. -/
def load_csv_rows (raw : List String) : Except LoadErr (List Row) :=
  match filteredLines raw with
  | [] => Except.ok []
  | header :: dataLines =>
    let fieldnames := parseCsvLine header
    if "repo" ∈ fieldnames ∧ "applied_ctx_size" ∈ fieldnames then
      loadRowsAux fieldnames dataLines
    else Except.error LoadErr.missingColumns

/-! ### Command templates and rendering (src/create_locals.py:23-30, 99-105).
Brace characters inside string literals are written with `\x7b`/`\x7d`
escapes; the strings are exactly the Python template constants. -/

/-- `CMD_TEMPLATE` (src/create_locals.py:27). -/
def CMD_TEMPLATE : String :=
  "$\x7b\x7bllama-server\x7d\x7d\n  -m /models/\x7bid\x7d\n  --ctx-size \x7bctx\x7d  --jinja"

/-- `CMD_TEMPLATE_REMOTE` (src/create_locals.py:28). -/
def CMD_TEMPLATE_REMOTE : String :=
  "$\x7b\x7bllama-server\x7d\x7d\n  -hf \x7brepo\x7d\n  --ctx-size \x7bctx\x7d  --jinja"

/-- `CMD_EMBED` (src/create_locals.py:29). -/
def CMD_EMBED : String :=
  "$\x7b\x7bllama-server\x7d\x7d\n  -m /models/\x7bid\x7d\n  --embedding"

/-- `CMD_EMBED_REMOTE` (src/create_locals.py:30; note the single space
before `-hf`). -/
def CMD_EMBED_REMOTE : String :=
  "$\x7b\x7bllama-server\x7d\x7d\n -hf \x7brepo\x7d\n  --embedding"

/-- Python `template.format(id=idv, repo=repov, ctx=ctxv)` for the template
constants above: `\x7b\x7b`/`\x7d\x7d` are literal braces and the three
placeholders `\x7bid\x7d`, `\x7brepo\x7d`, `\x7bctx\x7d` substitute.  (A
stray brace cannot occur in the four templates, so the catch-all emitting it
verbatim is never hit on them.) -/
def pyFormat (idv repov : String) (ctxv : Int) : List Char → List Char
  | [] => []
  | '\x7b' :: '\x7b' :: rest => '\x7b' :: pyFormat idv repov ctxv rest
  | '\x7d' :: '\x7d' :: rest => '\x7d' :: pyFormat idv repov ctxv rest
  | '\x7b' :: 'i' :: 'd' :: '\x7d' :: rest => idv.data ++ pyFormat idv repov ctxv rest
  | '\x7b' :: 'r' :: 'e' :: 'p' :: 'o' :: '\x7d' :: rest => repov.data ++ pyFormat idv repov ctxv rest
  | '\x7b' :: 'c' :: 't' :: 'x' :: '\x7d' :: rest => (pyStrInt ctxv).data ++ pyFormat idv repov ctxv rest
  | c :: rest => c :: pyFormat idv repov ctxv rest

/-- `build_cmd` (src/create_locals.py:99-105): pick the template by role and
by whether the identifier looks like a local `.gguf` file, then render. -/
def build_cmd (model_id : String) (repo_with_quant : String) (ctx : Int)
    (embedder : Bool) : String :=
  let template :=
    if embedder then
      if strEndsWith model_id ".gguf" then CMD_EMBED else CMD_EMBED_REMOTE
    else
      if strEndsWith model_id ".gguf" then CMD_TEMPLATE else CMD_TEMPLATE_REMOTE
  String.mk (pyFormat model_id repo_with_quant ctx template.data)

/-! ### Key derivation (src/create_locals.py:90-95, 117-122) -/

/-- `derive_key_from_repo` (src/create_locals.py:90-95). -/
def derive_key_from_repo (repo_with_quant : String) : String :=
  if ¬ (strContains repo_with_quant ':' = true) ∨ ¬ (strContains repo_with_quant '/' = true) then
    String.mk (repo_with_quant.data.map (fun c => if c = '/' then '-' else c))
  else
    let repo := String.mk ((splitOnChar ':' repo_with_quant.data).headD [])
    let quant := String.mk (joinWithChar ':' (splitOnChar ':' repo_with_quant.data).tail)
    let name :=
      let last := String.mk ((splitOnChar '/' repo.data).getLastD [])
      if strEndsWith last "-GGUF" then strDropLast last 5 else last
    name ++ ":" ++ quant

/-- Lookahead `(?=\.gguf|$)` of the multi-part regex, case-insensitive on
the letters (re.IGNORECASE). -/
def ggufLookahead : List Char → Bool
  | [] => true
  | '.' :: g1 :: g2 :: u :: f4 :: _ =>
    g1.toLower = 'g' && g2.toLower = 'g' && u.toLower = 'u' && f4.toLower = 'f'
  | _ => false

/-- One match attempt of the Python regex `-\d+-of-\d+(?=\.gguf|$)` with
`re.IGNORECASE` at the head of `l`; returns the remainder after the matched
segment.  Greedy `\d+` never backtracks here because the characters that
must follow each digit run (`-`, `.`, end) are not digits, so maximal munch
is exact. -/
def matchMultiPart : List Char → Option (List Char)
  | [] => none
  | c :: rest =>
    if c = '-' then
      if (rest.takeWhile Char.isDigit).isEmpty then none
      else
        match rest.dropWhile Char.isDigit with
        | '-' :: co :: cf :: '-' :: r2 =>
          if co.toLower = 'o' ∧ cf.toLower = 'f' then
            if (r2.takeWhile Char.isDigit).isEmpty then none
            else if ggufLookahead (r2.dropWhile Char.isDigit) then
              some (r2.dropWhile Char.isDigit)
            else none
          else none
        | _ => none
    else none

/-- `re.sub` scan with empty replacement: try a match at each position from
the left; on success continue after the match, otherwise emit the character.
`fuel` bounds the number of steps; any `fuel ≥ l.length` gives the unfueled
behavior since every step consumes at least one character. -/
def stripMPAux : Nat → List Char → List Char
  | _, [] => []
  | 0, l => l
  | fuel + 1, c :: rest =>
    match matchMultiPart (c :: rest) with
    | some r => stripMPAux fuel r
    | none => c :: stripMPAux fuel rest

/-- `re.sub(r'-\d+-of-\d+(?=\.gguf|$)', '', s, flags=re.IGNORECASE)`
(src/create_locals.py:119). -/
def stripMultiPart (s : String) : String :=
  String.mk (stripMPAux s.data.length s.data)

/-- Lines 121-122 of src/create_locals.py: strip a trailing `.gguf`
(any case) from the derived base name. -/
def stripTrailingGguf (s : String) : String :=
  if strEndsWith (pyLower s) ".gguf" then strDropLast s 5 else s

/-- `model_id_raw` of src/create_locals.py:114: the loader-supplied id, or
the repo-derived fallback when it is empty. -/
def modelIdRaw (r : Row) : String :=
  if r.id = "" then derive_key_from_repo r.repo else r.id

/-- The pre-collision document key of a row (src/create_locals.py:117-122). -/
def rowKeyBase (r : Row) : String :=
  stripTrailingGguf (stripMultiPart (modelIdRaw r))

/-- The freshly rendered command of a row (src/create_locals.py:131-132);
the `-m` parameter uses the original `model_id_raw`, not the collapsed key. -/
def rowCmd (r : Row) : String :=
  build_cmd (modelIdRaw r) r.repo r.applied r.embedder

/-! ### Collision suffixing (src/create_locals.py:124-129) -/

/-- Candidate key: `orig` followed by two underscores and the decimal
rendering of the counter `k`, as the Python f-string at
src/create_locals.py:127 produces. -/
def cand (orig : String) (k : Nat) : String :=
  orig ++ "__" ++ Nat.repr k

/-- The `while yaml_key in seen_keys` loop body: try `cand orig k`,
`cand orig (k+1)`, ...; `fuel` bounds the iterations (the theorem
`resolveFrom_not_mem` shows `seen.length + 1` iterations always reach a
fresh key, so the fuel default never truncates the Python loop). -/
def resolveFrom (orig : String) (seen : List String) : Nat → Nat → String
  | 0, k => cand orig k
  | fuel + 1, k => if cand orig k ∈ seen then resolveFrom orig seen fuel (k + 1) else cand orig k

/-- Collision resolution of src/create_locals.py:124-129: keep the key when
fresh, otherwise append `__2`, `__3`, ... until a fresh key is found. -/
def resolveCollision (orig : String) (seen : List String) : String :=
  if orig ∈ seen then resolveFrom orig seen (seen.length + 1) 2 else orig

/-! ### The document model and rebuild loop (src/create_locals.py:73-144) -/

/-- A YAML value as far as this program inspects it: strings, integers, and
ordered mappings (other scalar kinds never influence control flow and can be
encoded as strings for the purposes of these claims). -/
inductive YVal where
  | str : String → YVal
  | int : Int → YVal
  | map : List (String × YVal) → YVal
deriving Repr

/-- Python `dict.get` on an insertion-ordered mapping with unique keys. -/
def dictGet {α : Type} : List (String × α) → String → Option α
  | [], _ => none
  | (k, v) :: t, key => if k = key then some v else dictGet t key

/-- Python `d[key] = v` on an insertion-ordered mapping with unique keys:
replace in place when present, append otherwise. -/
def dictSet {α : Type} : List (String × α) → String → α → List (String × α)
  | [], key, v => [(key, v)]
  | (k, w) :: t, key, v => if k = key then (key, v) :: t else (k, w) :: dictSet t key v

/-- `dict(existing_entry) if isinstance(existing_entry, dict) else {}`
(src/create_locals.py:134-137). -/
def priorAt (existing : List (String × YVal)) (k : String) : List (String × YVal) :=
  match dictGet existing k with
  | some (YVal.map e) => e
  | _ => []

/-- One iteration of the rebuild loop (src/create_locals.py:111-141):
resolve the key, copy the prior entry when it is a mapping, overwrite `cmd`
with the fresh render, and record the key as seen. -/
def processRow (existing : List (String × YVal)) (seen : List String) (r : Row) :
    (String × YVal) × List String :=
  let yaml_key := resolveCollision (rowKeyBase r) seen
  ((yaml_key, YVal.map (dictSet (priorAt existing yaml_key) "cmd" (YVal.str (rowCmd r)))),
   List.insert yaml_key seen)

/-- The rebuild loop over all rows; the emitted association list is
`new_models` in insertion order (every resolved key is fresh, so Python's
`new_models[yaml_key] = ...` always appends). -/
def buildModelsAux (existing : List (String × YVal)) (seen : List String) :
    List Row → List (String × YVal)
  | [] => []
  | r :: rs =>
    let p := processRow existing seen r
    p.1 :: buildModelsAux existing p.2 rs

/-- What the run prints and writes on success: the written document, the
entry count, and the `duplicate_warning` key list
(src/create_locals.py:143-174).  `added_repos` is collected by the loop but
never printed, so it is not part of the summary. -/
structure RunOutput where
  doc : List (String × YVal)
  count : Nat
  dupKeys : List String
deriving Repr

/-- Process outcome of one run of src/create_locals.py; error constructors
carry no document because the script writes only at line 163, after the
whole new mapping is built. -/
inductive ScriptResult where
  | noRows
  | missingColumns
  | intError
  | notAMapping
  | noModelsKey
  | ok : RunOutput → ScriptResult
deriving Repr

/-- Process exit code of each outcome (`sys.exit` calls at lines 46, 71, 79,
84; an uncaught `ValueError` exits the interpreter with code 1; success
falls off the end with code 0). -/
def exitCode : ScriptResult → Nat
  | ScriptResult.noRows => 0
  | ScriptResult.missingColumns => 2
  | ScriptResult.intError => 1
  | ScriptResult.notAMapping => 3
  | ScriptResult.noModelsKey => 4
  | ScriptResult.ok _ => 0

/-- The document written back, when any: only a successful run reaches the
write at src/create_locals.py:163. -/
def writtenDoc : ScriptResult → Option (List (String × YVal))
  | ScriptResult.ok out => some out.doc
  | _ => none

/-- The run on an already-parsed non-empty row list and parsed config
(src/create_locals.py:73-174). -/
def runWithRows (rows : List Row) (cfg : YVal) : ScriptResult :=
  match cfg with
  | YVal.map cfgm =>
    match dictGet cfgm "models" with
    | some (YVal.map existing_models) =>
      let new_models := buildModelsAux existing_models [] rows
      ScriptResult.ok
        { doc := dictSet cfgm "models" (YVal.map new_models)
          count := new_models.length
          dupKeys := (new_models.map (fun p => p.1)).filter (fun k => strSubstr "__" k) }
    | _ => ScriptResult.noModelsKey
  | _ => ScriptResult.notAMapping

/-- One whole run of src/create_locals.py on the CSV lines and the parsed
prior configuration document. -/
def runScript (csvLines : List String) (cfg : YVal) : ScriptResult :=
  match load_csv_rows csvLines with
  | Except.error LoadErr.missingColumns => ScriptResult.missingColumns
  | Except.error LoadErr.badInt => ScriptResult.intError
  | Except.ok rows =>
    if rows = [] then ScriptResult.noRows else runWithRows rows cfg

/-- The candidates a `resolveFrom` call with the given fuel can try
(auxiliary notion for the freshness proof). -/
def candList (orig : String) (k fuel : Nat) : List String :=
  (List.range fuel).map (fun i => cand orig (k + i))

/-- A `.gguf`-style extension position for the multi-part rule: either
nothing (the numbering segment is at the end of the identifier) or exactly a
`.gguf` extension in any letter case, matching the claim's reading of the
lookahead `(?=\.gguf|$)`. -/
def gExtOk (ext : List Char) : Prop :=
  ext = [] ∨ ∃ g1 g2 u f4 : Char, ext = ['.', g1, g2, u, f4] ∧
    (g1 = 'g' ∨ g1 = 'G') ∧ (g2 = 'g' ∨ g2 = 'G') ∧ (u = 'u' ∨ u = 'U') ∧
    (f4 = 'f' ∨ f4 = 'F')

/-- No `-` immediately followed by a digit occurs inside `l`: under this
condition the multi-part regex cannot start a match inside `l`. -/
def noDashDigit (l : List Char) : Prop :=
  List.Chain' (fun a b => ¬(a = '-' ∧ b.isDigit = true)) l

/-- Modelled from the spec (for claim C9): the keys "that received collision
suffixes during this run", i.e. the resolved keys that differ from their
row's pre-collision base key, in run order.  This follows the spec's words;
the source computes its `duplicate_warning` list differently (substring test
`"__" in k` over all generated keys, src/create_locals.py:167). -/
def claimedSuffixedKeys (seen : List String) : List Row → List String
  | [] => []
  | r :: rs =>
    let k := resolveCollision (rowKeyBase r) seen
    (if k ≠ rowKeyBase r then [k] else []) ++ claimedSuffixedKeys (List.insert k seen) rs

/-! ## General lemmas -/

/-! ### Decimal rendering is injective (inverts `Nat.repr` with `chVal`) -/

theorem digitChar_val (m : Nat) (h : m < 10) : (Nat.digitChar m).toNat - '0'.toNat = m := by
  interval_cases m <;> rfl

theorem chVal_toDigitsCore (f : Nat) : ∀ (n : Nat) (ds : List Char), n < f →
    chVal 0 (Nat.toDigitsCore 10 f n ds) = chVal n ds := by
  induction f with
  | zero => intro n ds h; omega
  | succ f ih =>
    intro n ds _
    rw [Nat.toDigitsCore]
    by_cases h0 : n / 10 = 0
    · simp only [h0, if_pos rfl]
      have hn : n < 10 := Nat.div_eq_zero_iff (by norm_num : 0 < 10) |>.mp h0
      show chVal (10 * 0 + ((n % 10).digitChar.toNat - '0'.toNat)) ds = chVal n ds
      rw [digitChar_val (n % 10) (Nat.mod_lt _ (by norm_num)), Nat.mod_eq_of_lt hn]
      ring_nf
    · simp only [if_neg h0]
      have hlt : n / 10 < f := by
        have h1 : n / 10 < n :=
          Nat.div_lt_self (Nat.pos_of_ne_zero (by intro hn; apply h0; simp [hn])) (by norm_num)
        omega
      rw [ih (n / 10) _ hlt]
      show chVal (10 * (n / 10) + ((n % 10).digitChar.toNat - '0'.toNat)) ds = chVal n ds
      rw [digitChar_val (n % 10) (Nat.mod_lt _ (by norm_num)), Nat.div_add_mod]

theorem chVal_repr (n : Nat) : chVal 0 (Nat.repr n).data = n := by
  show chVal 0 (Nat.toDigitsCore 10 (n + 1) n []) = n
  rw [chVal_toDigitsCore (n + 1) n [] (Nat.lt_succ_self n)]
  rfl

theorem natRepr_inj {m n : Nat} (h : Nat.repr m = Nat.repr n) : m = n := by
  have hm := chVal_repr m
  rw [h, chVal_repr n] at hm
  omega

/-! ### Freshness of collision resolution -/

theorem cand_inj {orig : String} {j k : Nat} (h : cand orig j = cand orig k) : j = k := by
  apply natRepr_inj
  apply String.ext
  have hd := congrArg String.data h
  simp only [cand, String.data_append] at hd
  rw [List.append_assoc, List.append_assoc] at hd
  exact List.append_cancel_left (List.append_cancel_left hd)

theorem candList_succ (orig : String) (k fuel : Nat) :
    candList orig k (fuel + 1) = cand orig k :: candList orig (k + 1) fuel := by
  simp only [candList, List.range_succ_eq_map, List.map_cons, Nat.add_zero, List.map_map]
  congr 1
  apply List.map_congr_left
  intro i _
  simp only [Function.comp_apply]
  congr 1
  omega

theorem cand_not_mem_candList (orig : String) (k fuel : Nat) :
    cand orig k ∉ candList orig (k + 1) fuel := by
  simp only [candList, List.mem_map, List.mem_range]
  rintro ⟨i, _, hc⟩
  have := cand_inj hc
  omega

theorem countP_disj (p q : String → Bool) (l : List String)
    (hdisj : ∀ s, p s = true → q s = false) :
    l.countP (fun s => p s || q s) = l.countP p + l.countP q := by
  induction l with
  | nil => rfl
  | cons a t ih =>
    simp only [List.countP_cons, ih]
    by_cases hp : p a = true
    · have hq := hdisj a hp
      simp [hp, hq]
      omega
    · simp only [Bool.not_eq_true] at hp
      by_cases hq : q a = true
      · simp [hp, hq]
        omega
      · simp [hp, hq]

theorem resolveFrom_not_mem (orig : String) (seen : List String) :
    ∀ (fuel k : Nat), seen.countP (fun s => s ∈ candList orig k fuel) < fuel →
    resolveFrom orig seen fuel k ∉ seen := by
  intro fuel
  induction fuel with
  | zero => intro k h; omega
  | succ fuel ih =>
    intro k h
    rw [resolveFrom]
    by_cases hmem : cand orig k ∈ seen
    · simp only [if_pos hmem]
      apply ih
      have hsplit : seen.countP (fun s => s ∈ candList orig k (fuel + 1)) =
          seen.countP (fun s => decide (s = cand orig k)) +
          seen.countP (fun s => s ∈ candList orig (k + 1) fuel) := by
        have hpt : ∀ s : String, (decide (s ∈ candList orig k (fuel + 1))) =
            ((decide (s = cand orig k)) || decide (s ∈ candList orig (k + 1) fuel)) := by
          intro s
          rw [candList_succ]
          by_cases h1 : s = cand orig k <;> by_cases h2 : s ∈ candList orig (k + 1) fuel <;>
            simp [List.mem_cons, h1, h2]
        rw [List.countP_congr (fun s _ => by rw [hpt s])]
        apply countP_disj
        intro s hs
        simp only [decide_eq_true_eq] at hs
        subst hs
        simp only [decide_eq_false_iff_not]
        exact cand_not_mem_candList orig k fuel
      have hpos : 0 < seen.countP (fun s => decide (s = cand orig k)) := by
        rw [List.countP_pos_iff]
        exact ⟨cand orig k, hmem, by simp⟩
      omega
    · simp only [if_neg hmem]
      exact hmem

theorem resolveCollision_not_mem (orig : String) (seen : List String) :
    resolveCollision orig seen ∉ seen := by
  rw [resolveCollision]
  by_cases hmem : orig ∈ seen
  · simp only [if_pos hmem]
    apply resolveFrom_not_mem
    calc seen.countP (fun s => s ∈ candList orig 2 (seen.length + 1)) ≤ seen.length :=
          List.countP_le_length _
      _ < seen.length + 1 := Nat.lt_succ_self _
  · simp only [if_neg hmem]
    exact hmem

/-! ### Dictionary (association-list) lemmas -/

theorem dictGet_dictSet_self {α : Type} (l : List (String × α)) (k : String) (v : α) :
    dictGet (dictSet l k v) k = some v := by
  induction l with
  | nil => simp [dictSet, dictGet]
  | cons a t ih =>
    obtain ⟨k0, w⟩ := a
    by_cases hk : k0 = k
    · simp [dictSet, dictGet, hk]
    · simp [dictSet, dictGet, hk, ih]

theorem dictGet_dictSet_ne {α : Type} (l : List (String × α)) (k k' : String) (v : α)
    (h : k' ≠ k) : dictGet (dictSet l k v) k' = dictGet l k' := by
  induction l with
  | nil => simp [dictSet, dictGet, Ne.symm h]
  | cons a t ih =>
    obtain ⟨k0, w⟩ := a
    by_cases hk : k0 = k
    · subst hk
      simp only [dictSet, if_pos rfl]
      simp [dictGet, h, Ne.symm h]
    · simp [dictSet, dictGet, hk, ih]

theorem dictSet_dictSet {α : Type} (l : List (String × α)) (k : String) (v w : α) :
    dictSet (dictSet l k w) k v = dictSet l k v := by
  induction l with
  | nil => simp [dictSet]
  | cons a t ih =>
    obtain ⟨k0, u⟩ := a
    by_cases hk : k0 = k
    · simp [dictSet, hk]
    · simp [dictSet, hk, ih]

theorem dictSet_keys_of_mem {α : Type} (l : List (String × α)) (k : String) (v : α)
    (h : k ∈ l.map Prod.fst) : (dictSet l k v).map Prod.fst = l.map Prod.fst := by
  induction l with
  | nil => simp at h
  | cons a t ih =>
    obtain ⟨k0, w⟩ := a
    by_cases hk : k0 = k
    · simp [dictSet, hk]
    · simp only [List.map_cons, List.mem_cons] at h
      rcases h with h | h
      · exact absurd h.symm hk
      · simp [dictSet, hk, ih h]

theorem mem_keys_of_dictGet {α : Type} {l : List (String × α)} {k : String} {v : α}
    (h : dictGet l k = some v) : k ∈ l.map Prod.fst := by
  induction l with
  | nil => simp [dictGet] at h
  | cons a t ih =>
    obtain ⟨k0, w⟩ := a
    by_cases hk : k0 = k
    · simp [hk]
    · simp only [dictGet, if_neg hk] at h
      simp [ih h]

theorem dictGet_of_mem_nodup {α : Type} {l : List (String × α)}
    (hnd : (l.map Prod.fst).Nodup) {k : String} {v : α} (hm : (k, v) ∈ l) :
    dictGet l k = some v := by
  induction l with
  | nil => simp at hm
  | cons a t ih =>
    obtain ⟨k0, w⟩ := a
    simp only [List.map_cons, List.nodup_cons] at hnd
    rcases List.mem_cons.mp hm with h | h
    · cases h
      simp [dictGet]
    · have hk : k0 ≠ k := by
        intro he
        exact hnd.1 (he ▸ List.mem_map_of_mem Prod.fst h)
      simp [dictGet, hk, ih hnd.2 h]

/-! ### Rebuild-loop lemmas -/

theorem buildModelsAux_length (E : List (String × YVal)) (rows : List Row) :
    ∀ seen, (buildModelsAux E seen rows).length = rows.length := by
  induction rows with
  | nil => intro seen; rfl
  | cons r rs ih => intro seen; simp [buildModelsAux, ih]

/-- Every emitted key is fresh with respect to the incoming `seen` set, and
the emitted keys are pairwise distinct. -/
theorem buildModelsAux_keys_nodup (E : List (String × YVal)) (rows : List Row) :
    ∀ seen, ((buildModelsAux E seen rows).map Prod.fst).Nodup ∧
      ∀ k ∈ (buildModelsAux E seen rows).map Prod.fst, k ∉ seen := by
  induction rows with
  | nil => intro seen; exact ⟨List.nodup_nil, by simp [buildModelsAux]⟩
  | cons r rs ih =>
    intro seen
    simp only [buildModelsAux, processRow, List.map_cons, List.nodup_cons]
    set k := resolveCollision (rowKeyBase r) seen with hk
    obtain ⟨ihnd, ihfresh⟩ := ih (List.insert k seen)
    refine ⟨⟨?_, ihnd⟩, ?_⟩
    · intro hmem
      exact ihfresh k hmem (by simp [List.mem_insert_iff])
    · intro k1 hk1
      rcases List.mem_cons.mp hk1 with h | h
      · subst h
        exact resolveCollision_not_mem _ _
      · intro hseen
        exact ihfresh k1 h (by simp [List.mem_insert_iff, hseen])

/-- Entry characterization: the `i`-th generated entry comes from the `i`-th
row; it is the prior entry at its resolved key (when that was a mapping,
else empty) with `cmd` overwritten by the freshly rendered command. -/
theorem buildModelsAux_get (E : List (String × YVal)) (rows : List Row) :
    ∀ (seen : List String) (i : Nat) (hi : i < rows.length),
      ∃ k, (buildModelsAux E seen rows).get? i =
        some (k, YVal.map (dictSet (priorAt E k) "cmd" (YVal.str (rowCmd (rows.get ⟨i, hi⟩))))) := by
  induction rows with
  | nil => intro seen i hi; simp at hi
  | cons r rs ih =>
    intro seen i hi
    cases i with
    | zero => exact ⟨resolveCollision (rowKeyBase r) seen, rfl⟩
    | succ j =>
      have hj : j < rs.length := by simpa using hi
      obtain ⟨k, hk⟩ := ih (List.insert (resolveCollision (rowKeyBase r) seen) seen) j hj
      exact ⟨k, hk⟩

/-- Rerunning the loop against a document whose `models` mapping already
contains exactly the entries the loop produces reproduces those entries:
the engine of the idempotence claim. -/
theorem buildModelsAux_stable (rows : List Row) :
    ∀ (seen : List String) (E M : List (String × YVal)),
      (∀ kv ∈ buildModelsAux E seen rows, dictGet M kv.1 = some kv.2) →
      buildModelsAux M seen rows = buildModelsAux E seen rows := by
  induction rows with
  | nil => intro seen E M _; rfl
  | cons r rs ih =>
    intro seen E M h
    simp only [buildModelsAux, processRow]
    set k := resolveCollision (rowKeyBase r) seen with hkdef
    have hhead := h (k, YVal.map (dictSet (priorAt E k) "cmd" (YVal.str (rowCmd r))))
      (by simp [buildModelsAux, processRow, ← hkdef])
    have hM : priorAt M k = dictSet (priorAt E k) "cmd" (YVal.str (rowCmd r)) := by
      simp only [priorAt, hhead]
    rw [hM, dictSet_dictSet]
    have htail : buildModelsAux M (List.insert k seen) rs =
        buildModelsAux E (List.insert k seen) rs := by
      apply ih
      intro kv hkv
      apply h
      simp only [buildModelsAux, processRow, List.mem_cons, ← hkdef]
      exact Or.inr hkv
    rw [htail]

/-- Inversion of a successful run: recover the loaded rows, the prior
document mapping, its `models` mapping, and the shape of the output. -/
theorem runScript_ok_inv {lines : List String} {cfg : YVal} {out : RunOutput}
    (h : runScript lines cfg = ScriptResult.ok out) :
    ∃ rows cfgm existing, load_csv_rows lines = Except.ok rows ∧ rows ≠ [] ∧
      cfg = YVal.map cfgm ∧ dictGet cfgm "models" = some (YVal.map existing) ∧
      out = { doc := dictSet cfgm "models" (YVal.map (buildModelsAux existing [] rows))
              count := (buildModelsAux existing [] rows).length
              dupKeys := ((buildModelsAux existing [] rows).map (fun p => p.1)).filter
                (fun k => strSubstr "__" k) } := by
  unfold runScript at h
  cases hload : load_csv_rows lines with
  | error e => cases e <;> rw [hload] at h <;> exact absurd h (by simp)
  | ok rows =>
    simp only [hload] at h
    by_cases hrows : rows = []
    · rw [if_pos hrows] at h
      exact absurd h (by simp)
    · rw [if_neg hrows] at h
      unfold runWithRows at h
      cases cfg with
      | str s => exact absurd h (by simp)
      | int i => exact absurd h (by simp)
      | map cfgm =>
        cases hget : dictGet cfgm "models" with
        | none => simp only [hget] at h; exact absurd h (by simp)
        | some mv =>
          cases mv with
          | str s => simp only [hget] at h; exact absurd h (by simp)
          | int i => simp only [hget] at h; exact absurd h (by simp)
          | map existing =>
            simp only [hget, ScriptResult.ok.injEq] at h
            exact ⟨rows, cfgm, existing, rfl, hrows, rfl, hget, h.symm⟩

/-! ## The claims -/

theorem build_cmd_embed_ctx (model_id repo : String) (c1 c2 : Int) :
    build_cmd model_id repo c1 true = build_cmd model_id repo c2 true := by
  by_cases h : strEndsWith model_id ".gguf" = true
  · simp only [build_cmd, h, if_true, if_pos]
    rfl
  · simp only [build_cmd, h, if_false, if_neg, Bool.false_eq_true]
    rfl

/-- Claim C10: for every row flagged as an embedder, the command is rendered
from the embedding template variant (local `CMD_EMBED` or remote
`CMD_EMBED_REMOTE`), neither of which contains the context-size placeholder,
so the rendered command is independent of the applied context size — both at
the `build_cmd` level and at the row level. -/
theorem C10_embed_cmd_ctx_independent :
    (∀ (model_id repo : String) (c1 c2 : Int),
      build_cmd model_id repo c1 true = build_cmd model_id repo c2 true) ∧
    (∀ (idv repo hf : String) (c1 c2 : Int),
      rowCmd { id := idv, repo := repo, applied := c1, hf := hf, embedder := true } =
      rowCmd { id := idv, repo := repo, applied := c2, hf := hf, embedder := true }) := by
  refine ⟨build_cmd_embed_ctx, ?_⟩
  intro idv repo hf c1 c2
  exact build_cmd_embed_ctx _ repo c1 c2

/-- Claim C2: rows are processed in source order; a key not yet assigned is
kept unchanged; every generated key is pairwise distinct (collision
suffixing never reuses a key); two rows with identical derived identifier
`foo:Q4` produce the keys `foo:Q4` and `foo:Q4__2`, in that order; and
three colliding rows receive `__2`, `__3` in the order encountered. -/
theorem C2_collision_suffixes :
    (∀ (existing : List (String × YVal)) (rows : List Row),
      ((buildModelsAux existing [] rows).map Prod.fst).Nodup) ∧
    (∀ (orig : String) (seen : List String), orig ∉ seen →
      resolveCollision orig seen = orig) ∧
    (buildModelsAux []
        [] [{ id := "foo:Q4", repo := "o/r:Q4", applied := 100, hf := "", embedder := false },
            { id := "foo:Q4", repo := "o/r:Q4", applied := 200, hf := "", embedder := false }]).map
      Prod.fst = ["foo:Q4", "foo:Q4__2"] ∧
    (buildModelsAux []
        [] [{ id := "dup", repo := "o/r:Q4", applied := 1, hf := "", embedder := false },
            { id := "dup", repo := "o/r:Q4", applied := 2, hf := "", embedder := false },
            { id := "dup", repo := "o/r:Q4", applied := 3, hf := "", embedder := false }]).map
      Prod.fst = ["dup", "dup__2", "dup__3"] := by
  refine ⟨?_, ?_, rfl, rfl⟩
  · intro existing rows
    exact (buildModelsAux_keys_nodup existing rows []).1
  · intro orig seen hmem
    rw [resolveCollision, if_neg hmem]

/-- Witness for the conditional conjunct of C2 at a concrete input. -/
theorem C2_collision_suffixes_witness : resolveCollision "w2" ["z"] = "w2" :=
  C2_collision_suffixes.2.1 "w2" ["z"] (by decide)

/-- Claim C1: for every resolved key of a run, if the prior `models` mapping
had a mapping entry under that exact key, the generated entry keeps all of
the prior entry's fields other than `cmd` unchanged, and its `cmd` field is
the freshly rendered command of the generating row (never the prior one). -/
theorem C1_preserved_fields (existing : List (String × YVal)) (rows : List Row)
    (i : Nat) (hi : i < rows.length) (k : String) (v : YVal)
    (hkv : (buildModelsAux existing [] rows).get? i = some (k, v))
    (prior : List (String × YVal))
    (hprior : dictGet existing k = some (YVal.map prior)) :
    ∃ e, v = YVal.map e ∧
      (∀ f, f ≠ "cmd" → dictGet e f = dictGet prior f) ∧
      dictGet e "cmd" = some (YVal.str (rowCmd (rows.get ⟨i, hi⟩))) := by
  obtain ⟨k2, hk2⟩ := buildModelsAux_get existing rows [] i hi
  rw [hkv] at hk2
  injection hk2 with hp
  injection hp with h1 h2
  subst h1
  have hpa : priorAt existing k = prior := by
    simp [priorAt, hprior]
  refine ⟨dictSet prior "cmd" (YVal.str (rowCmd (rows.get ⟨i, hi⟩))), ?_, ?_, ?_⟩
  · rw [h2, hpa]
  · intro f hf
    exact dictGet_dictSet_ne _ _ _ _ hf
  · exact dictGet_dictSet_self _ _ _

/-- Witness for C1 at a concrete input: one row keyed `m` over a prior entry
`\x7bcmd: old, gpu: 1\x7d`; the regenerated entry keeps `gpu` and has the
fresh command. -/
theorem C1_preserved_fields_witness :
    ∃ e, YVal.map (dictSet (priorAt [("m", YVal.map [("cmd", YVal.str "old"), ("gpu", YVal.int 1)])] "m")
        "cmd" (YVal.str (rowCmd { id := "m", repo := "o/r:Q4", applied := 64, hf := "", embedder := false }))) =
      YVal.map e ∧
      (∀ f, f ≠ "cmd" →
        dictGet e f = dictGet [("cmd", YVal.str "old"), ("gpu", YVal.int 1)] f) ∧
      dictGet e "cmd" = some (YVal.str (rowCmd { id := "m", repo := "o/r:Q4", applied := 64, hf := "", embedder := false })) :=
  C1_preserved_fields
    [("m", YVal.map [("cmd", YVal.str "old"), ("gpu", YVal.int 1)])]
    [{ id := "m", repo := "o/r:Q4", applied := 64, hf := "", embedder := false }]
    0 (by decide) "m" _ rfl [("cmd", YVal.str "old"), ("gpu", YVal.int 1)] rfl

/-- Claim C5: a successful run on a prior top-level mapping with a `models`
mapping replaces exactly the `models` section and passes every other
top-level section through unchanged — same keys in the same order, and the
same value under every non-`models` key. -/
theorem C5_pass_through (lines : List String) (cfgm : List (String × YVal)) (out : RunOutput)
    (h : runScript lines (YVal.map cfgm) = ScriptResult.ok out) :
    out.doc.map Prod.fst = cfgm.map Prod.fst ∧
    (∀ k, k ≠ "models" → dictGet out.doc k = dictGet cfgm k) ∧
    (∃ nm, dictGet out.doc "models" = some (YVal.map nm) ∧
      ∃ rows existing, load_csv_rows lines = Except.ok rows ∧
        dictGet cfgm "models" = some (YVal.map existing) ∧
        nm = buildModelsAux existing [] rows) := by
  obtain ⟨rows, cfgm2, existing, hload, hne, hcfg, hget, hout⟩ := runScript_ok_inv h
  have hc : cfgm = cfgm2 := by injection hcfg
  subst hc
  subst hout
  refine ⟨?_, ?_, ?_⟩
  · exact dictSet_keys_of_mem _ _ _ (mem_keys_of_dictGet hget)
  · intro k hk
    exact dictGet_dictSet_ne _ _ _ _ hk
  · exact ⟨buildModelsAux existing [] rows, dictGet_dictSet_self _ _ _,
      rows, existing, hload, hget, rfl⟩

/-- Witness for C5 at a concrete input: a document with an unrelated section
`healthCheckTimeout` next to `models`; the run keeps the key list and the
unrelated section's value. -/
theorem C5_pass_through_witness :
    (dictSet [("healthCheckTimeout", YVal.int 60), ("models", YVal.map [])] "models"
        (YVal.map (buildModelsAux [] []
          [{ id := "w5", repo := "o/w5:Q8", applied := 32, hf := "", embedder := false }]))).map Prod.fst =
      ["healthCheckTimeout", "models"] ∧
    dictGet (dictSet [("healthCheckTimeout", YVal.int 60), ("models", YVal.map [])] "models"
        (YVal.map (buildModelsAux [] []
          [{ id := "w5", repo := "o/w5:Q8", applied := 32, hf := "", embedder := false }])))
      "healthCheckTimeout" = some (YVal.int 60) := by
  have h := C5_pass_through ["id,repo,applied_ctx_size", "w5,o/w5:Q8,32"]
    [("healthCheckTimeout", YVal.int 60), ("models", YVal.map [])]
    { doc := dictSet [("healthCheckTimeout", YVal.int 60), ("models", YVal.map [])] "models"
        (YVal.map (buildModelsAux [] []
          [{ id := "w5", repo := "o/w5:Q8", applied := 32, hf := "", embedder := false }]))
      count := (buildModelsAux [] []
          [{ id := "w5", repo := "o/w5:Q8", applied := 32, hf := "", embedder := false }]).length
      dupKeys := ((buildModelsAux [] []
          [{ id := "w5", repo := "o/w5:Q8", applied := 32, hf := "", embedder := false }]).map
        (fun p => p.1)).filter (fun k => strSubstr "__" k) } rfl
  exact ⟨h.1, h.2.1 "healthCheckTimeout" (by decide)⟩

/-- Claim C6: when the (present) table header lacks a required column
(`repo` or `applied_ctx_size`), the run fails as `MissingColumns` with its
own exit code 2 — no other outcome has that code — and no document is
written, whatever the prior document was. -/
theorem C6_missing_columns (lines : List String) (header : String) (rest : List String)
    (hf : filteredLines lines = header :: rest)
    (hmiss : "repo" ∉ parseCsvLine header ∨ "applied_ctx_size" ∉ parseCsvLine header)
    (cfg : YVal) :
    runScript lines cfg = ScriptResult.missingColumns ∧
    exitCode (runScript lines cfg) = 2 ∧
    writtenDoc (runScript lines cfg) = none ∧
    (∀ r : ScriptResult, exitCode r = 2 → r = ScriptResult.missingColumns) := by
  have hload : load_csv_rows lines = Except.error LoadErr.missingColumns := by
    unfold load_csv_rows
    rw [hf]
    have hq : ¬("repo" ∈ parseCsvLine header ∧ "applied_ctx_size" ∈ parseCsvLine header) := by
      tauto
    show (if "repo" ∈ parseCsvLine header ∧ "applied_ctx_size" ∈ parseCsvLine header then
        loadRowsAux (parseCsvLine header) rest
      else Except.error LoadErr.missingColumns) = Except.error LoadErr.missingColumns
    rw [if_neg hq]
  have hrun : runScript lines cfg = ScriptResult.missingColumns := by
    unfold runScript
    simp only [hload]
  refine ⟨hrun, by rw [hrun]; rfl, by rw [hrun]; rfl, ?_⟩
  intro r hr
  cases r <;> simp [exitCode] at hr ⊢

/-- Witness for C6 at a concrete input: a header lacking
`applied_ctx_size`. -/
theorem C6_missing_columns_witness :
    runScript ["id,repo", "x,o/r:Q4"] (YVal.map [("models", YVal.map [])]) =
      ScriptResult.missingColumns ∧
    exitCode (runScript ["id,repo", "x,o/r:Q4"] (YVal.map [("models", YVal.map [])])) = 2 ∧
    writtenDoc (runScript ["id,repo", "x,o/r:Q4"] (YVal.map [("models", YVal.map [])])) = none ∧
    (∀ r : ScriptResult, exitCode r = 2 → r = ScriptResult.missingColumns) :=
  C6_missing_columns ["id,repo", "x,o/r:Q4"] "id,repo" ["x,o/r:Q4"] rfl
    (Or.inr (by decide)) (YVal.map [("models", YVal.map [])])

/-- Claim C7: the generator is a pure function of its inputs (it is modelled
as one, so two runs on the same table and prior document give the same
result definitionally), and it stabilizes after one run: rerunning on the
document written by a successful run, with the table unchanged, succeeds and
produces an identical `models` mapping. -/
theorem C7_idempotent (lines : List String) (cfgm : List (String × YVal)) (out : RunOutput)
    (h : runScript lines (YVal.map cfgm) = ScriptResult.ok out) :
    ∃ out2, runScript lines (YVal.map out.doc) = ScriptResult.ok out2 ∧
      dictGet out2.doc "models" = dictGet out.doc "models" := by
  obtain ⟨rows, cfgm2, existing, hload, hne, hcfg, hget, hout⟩ := runScript_ok_inv h
  have hc : cfgm = cfgm2 := by injection hcfg
  subst hc
  subst hout
  have hget2 : dictGet (dictSet cfgm "models"
      (YVal.map (buildModelsAux existing [] rows))) "models" =
      some (YVal.map (buildModelsAux existing [] rows)) :=
    dictGet_dictSet_self _ _ _
  have hstab : buildModelsAux (buildModelsAux existing [] rows) [] rows =
      buildModelsAux existing [] rows := by
    apply buildModelsAux_stable
    intro kv hkv
    have hnd := (buildModelsAux_keys_nodup existing rows []).1
    obtain ⟨a, b⟩ := kv
    exact dictGet_of_mem_nodup hnd hkv
  have hrun2 : runScript lines (YVal.map (dictSet cfgm "models"
      (YVal.map (buildModelsAux existing [] rows)))) =
      ScriptResult.ok
        { doc := dictSet (dictSet cfgm "models" (YVal.map (buildModelsAux existing [] rows)))
            "models" (YVal.map (buildModelsAux (buildModelsAux existing [] rows) [] rows))
          count := (buildModelsAux (buildModelsAux existing [] rows) [] rows).length
          dupKeys := ((buildModelsAux (buildModelsAux existing [] rows) [] rows).map
            (fun p => p.1)).filter (fun k => strSubstr "__" k) } := by
    simp only [runScript, hload, if_neg hne, runWithRows, hget2]
  refine ⟨_, hrun2, ?_⟩
  show dictGet (dictSet (dictSet cfgm "models" (YVal.map (buildModelsAux existing [] rows)))
        "models" (YVal.map (buildModelsAux (buildModelsAux existing [] rows) [] rows)))
      "models" = dictGet (dictSet cfgm "models" (YVal.map (buildModelsAux existing [] rows))) "models"
  rw [hstab, dictGet_dictSet_self, hget2]

/-- Witness for C7 at a concrete input: a run over a prior document with a
stale entry and an extra field. -/
theorem C7_idempotent_witness :
    ∃ out2, runScript ["id,repo,applied_ctx_size", "w7,o/w7:Q6,48"]
        (YVal.map (dictSet [("models", YVal.map [("w7", YVal.map [("ttl", YVal.int 9)])])] "models"
          (YVal.map (buildModelsAux [("w7", YVal.map [("ttl", YVal.int 9)])] []
            [{ id := "w7", repo := "o/w7:Q6", applied := 48, hf := "", embedder := false }])))) =
      ScriptResult.ok out2 ∧
      dictGet out2.doc "models" =
        dictGet (dictSet [("models", YVal.map [("w7", YVal.map [("ttl", YVal.int 9)])])] "models"
          (YVal.map (buildModelsAux [("w7", YVal.map [("ttl", YVal.int 9)])] []
            [{ id := "w7", repo := "o/w7:Q6", applied := 48, hf := "", embedder := false }])))
          "models" :=
  C7_idempotent ["id,repo,applied_ctx_size", "w7,o/w7:Q6,48"]
    [("models", YVal.map [("w7", YVal.map [("ttl", YVal.int 9)])])]
    { doc := dictSet [("models", YVal.map [("w7", YVal.map [("ttl", YVal.int 9)])])] "models"
        (YVal.map (buildModelsAux [("w7", YVal.map [("ttl", YVal.int 9)])] []
          [{ id := "w7", repo := "o/w7:Q6", applied := 48, hf := "", embedder := false }]))
      count := (buildModelsAux [("w7", YVal.map [("ttl", YVal.int 9)])] []
          [{ id := "w7", repo := "o/w7:Q6", applied := 48, hf := "", embedder := false }]).length
      dupKeys := ((buildModelsAux [("w7", YVal.map [("ttl", YVal.int 9)])] []
          [{ id := "w7", repo := "o/w7:Q6", applied := 48, hf := "", embedder := false }]).map
        (fun p => p.1)).filter (fun k => strSubstr "__" k) } rfl

/-- Counterexample to C4 as stated: for the blank-identifier row over
`owner/model-GGUF:Q4` the loader derives `model-GGUF:Q4` — it does not drop
the `-GGUF` suffix.  The claimed derivation (strip path prefix, drop
`-GGUF`, reattach quant) is exactly `derive_key_from_repo`, which yields
`model:Q4` on this reference, a different identifier. -/
theorem C4_counterexample :
    load_csv_rows ["id,repo,applied_ctx_size", ",owner/model-GGUF:Q4,4096"] =
      Except.ok [{ id := "model-GGUF:Q4", repo := "owner/model-GGUF:Q4", applied := 4096,
                   hf := "", embedder := false }] ∧
    derive_key_from_repo "owner/model-GGUF:Q4" = "model:Q4" ∧
    ("model-GGUF:Q4" : String) ≠ "model:Q4" :=
  ⟨rfl, rfl, by decide⟩

/-- Claim C4 (amended): for every row whose identifier column is absent or
blank, the identifier is derived from the repository reference by
`loaderDeriveId` — last path component up to the first colon, with the text
after the reference's first colon reattached after a colon when present; no
`-GGUF` suffix is dropped (witness the two concrete conjuncts: the suffix
survives, while `derive_key_from_repo`, never reached on this path, would
have dropped it). -/
theorem C4_blank_id_derivation :
    (∀ (fieldnames fields : List String) (r : Row),
      rowOfRecord fieldnames fields = Except.ok (some r) →
      pyStrip ((recordGet fieldnames fields "id").getD "") = "" →
      r.id = loaderDeriveId r.repo) ∧
    loaderDeriveId "owner/model-GGUF:Q4" = "model-GGUF:Q4" ∧
    loaderDeriveId "owner/model:Q4" = "model:Q4" := by
  refine ⟨?_, rfl, rfl⟩
  intro fieldnames fields r hrow hblank
  simp only [rowOfRecord] at hrow
  by_cases hrepo : pyStrip ((recordGet fieldnames fields "repo").getD "") = ""
  · rw [if_pos hrepo] at hrow
    exact absurd hrow (by simp)
  · rw [if_neg hrepo] at hrow
    rw [hblank] at hrow
    simp only [if_pos rfl] at hrow
    cases hpa : parseApplied (recordGet fieldnames fields "applied_ctx_size") with
    | none =>
      rw [hpa] at hrow
      exact absurd hrow (by simp)
    | some applied =>
      rw [hpa] at hrow
      simp only [Except.ok.injEq, Option.some.injEq] at hrow
      rw [← hrow]
      simp

/-- Witness for C4 (amended) at a concrete input: a record with a blank
identifier field. -/
theorem C4_blank_id_derivation_witness :
    (Row.mk "model-GGUF:Q4" "owner/model-GGUF:Q4" 4096 "" false).id =
      loaderDeriveId (Row.mk "model-GGUF:Q4" "owner/model-GGUF:Q4" 4096 "" false).repo :=
  C4_blank_id_derivation.1 (parseCsvLine "id,repo,applied_ctx_size")
    (parseCsvLine ",owner/model-GGUF:Q4,4096") _ rfl rfl

theorem rowOfRecord_repo_ne (fieldnames fields : List String) (r : Row)
    (h : rowOfRecord fieldnames fields = Except.ok (some r)) : r.repo ≠ "" := by
  simp only [rowOfRecord] at h
  by_cases hrepo : pyStrip ((recordGet fieldnames fields "repo").getD "") = ""
  · rw [if_pos hrepo] at h
    exact absurd h (by simp)
  · rw [if_neg hrepo] at h
    cases hpa : parseApplied (recordGet fieldnames fields "applied_ctx_size") with
    | none =>
      rw [hpa] at h
      exact absurd h (by simp)
    | some applied =>
      rw [hpa] at h
      simp only [Except.ok.injEq, Option.some.injEq] at h
      rw [← h]
      exact hrepo

theorem loadRowsAux_repo_ne (fieldnames : List String) :
    ∀ (dataLines : List String) (rows : List Row),
      loadRowsAux fieldnames dataLines = Except.ok rows → ∀ r ∈ rows, r.repo ≠ "" := by
  intro dataLines
  induction dataLines with
  | nil =>
    intro rows h r hr
    simp only [loadRowsAux, Except.ok.injEq] at h
    subst h
    simp at hr
  | cons ln rest ih =>
    intro rows h r hr
    cases hrec : rowOfRecord fieldnames (parseCsvLine ln) with
    | error e =>
      simp only [loadRowsAux, hrec] at h
      exact absurd h (by simp)
    | ok o =>
      cases o with
      | none =>
        simp only [loadRowsAux, hrec] at h
        exact ih rows h r hr
      | some r0 =>
        simp only [loadRowsAux, hrec] at h
        cases hrest : loadRowsAux fieldnames rest with
        | error e => rw [hrest] at h; simp [Except.map] at h
        | ok rs =>
          rw [hrest] at h
          simp only [Except.map, Except.ok.injEq] at h
          subst h
          rcases List.mem_cons.mp hr with he | he
          · subst he
            exact rowOfRecord_repo_ne fieldnames (parseCsvLine ln) r hrec
          · exact ih rs hrest r he

/-- Counterexample to C8 as stated: on the table row `o/m:Q4,-5` the loader
accepts the negative context size, so the produced row violates the claimed
non-negativity invariant. -/
theorem C8_counterexample :
    load_csv_rows ["repo,applied_ctx_size", "o/m:Q4,-5"] =
      Except.ok [{ id := "m:Q4", repo := "o/m:Q4", applied := -5, hf := "", embedder := false }] ∧
    ¬ (0 ≤ (-5 : Int)) :=
  ⟨rfl, by decide⟩

/-- Claim C8 (amended): every row produced by the loader has a non-empty
repository reference (records with a blank reference are silently skipped,
producing no row and no error), and the applied context size is an integer
that defaults to 0 when the field is absent or blank — but its sign is kept,
so it is not necessarily non-negative. -/
theorem C8_row_invariant :
    (∀ (raw : List String) (rows : List Row), load_csv_rows raw = Except.ok rows →
      ∀ r ∈ rows, r.repo ≠ "") ∧
    parseApplied none = some 0 ∧
    parseApplied (some "") = some 0 ∧
    parseApplied (some "   ") = some 0 ∧
    (∀ (fieldnames fields : List String),
      pyStrip ((recordGet fieldnames fields "repo").getD "") = "" →
      rowOfRecord fieldnames fields = Except.ok none) := by
  refine ⟨?_, rfl, rfl, rfl, ?_⟩
  · intro raw rows h r hr
    unfold load_csv_rows at h
    cases hf : filteredLines raw with
    | nil =>
      simp only [hf, Except.ok.injEq] at h
      subst h
      simp at hr
    | cons header dataLines =>
      simp only [hf] at h
      by_cases hcols : "repo" ∈ parseCsvLine header ∧ "applied_ctx_size" ∈ parseCsvLine header
      · rw [if_pos hcols] at h
        exact loadRowsAux_repo_ne (parseCsvLine header) dataLines rows h r hr
      · rw [if_neg hcols] at h
        exact absurd h (by simp)
  · intro fieldnames fields hrepo
    simp only [rowOfRecord]
    rw [if_pos hrepo]

/-- Witness for C8 (amended) at a concrete input. -/
theorem C8_row_invariant_witness :
    (Row.mk "b:Q1" "a/b:Q1" 7 "" false).repo ≠ "" ∧
    parseApplied none = some 0 ∧
    rowOfRecord (parseCsvLine "repo,applied_ctx_size") (parseCsvLine ",9") = Except.ok none :=
  ⟨C8_row_invariant.1 ["repo,applied_ctx_size", "a/b:Q1,7"]
      [Row.mk "b:Q1" "a/b:Q1" 7 "" false] rfl _
      (List.mem_singleton.mpr rfl),
   C8_row_invariant.2.1,
   C8_row_invariant.2.2.2.2 (parseCsvLine "repo,applied_ctx_size") (parseCsvLine ",9") rfl⟩

/-- Counterexample to C9 as stated: a single row whose identifier `a__b`
already contains `__`.  No key received a collision suffix in this run
(`claimedSuffixedKeys` — the spec's notion — is empty), yet the summary's
`duplicate_warning` list is `["a__b"]`, so the summary does not list
"exactly those keys that received collision suffixes".  (The run also
introduces the new reference `o/r:Q1`, but the output of
src/create_locals.py has no newly-introduced-repositories report at all:
`added_repos` is never printed.) -/
theorem C9_counterexample :
    runScript ["id,repo,applied_ctx_size", "a__b,o/r:Q1,10"] (YVal.map [("models", YVal.map [])]) =
      ScriptResult.ok
        { doc := [("models", YVal.map [("a__b", YVal.map [("cmd",
            YVal.str "$\x7bllama-server\x7d\n  -hf o/r:Q1\n  --ctx-size 10  --jinja")])])]
          count := 1
          dupKeys := ["a__b"] } ∧
    claimedSuffixedKeys [] [Row.mk "a__b" "o/r:Q1" 10 "" false] = [] ∧
    (["a__b"] : List String) ≠ [] :=
  ⟨rfl, rfl, by decide⟩

theorem resolveFrom_cand (orig : String) (seen : List String) :
    ∀ (fuel k : Nat), ∃ j, resolveFrom orig seen fuel k = cand orig j := by
  intro fuel
  induction fuel with
  | zero => intro k; exact ⟨k, rfl⟩
  | succ fuel ih =>
    intro k
    rw [resolveFrom]
    by_cases hmem : cand orig k ∈ seen
    · rw [if_pos hmem]
      exact ih (k + 1)
    · rw [if_neg hmem]
      exact ⟨k, rfl⟩

theorem containsSeq_dunder (post : List Char) :
    ∀ pre : List Char, containsSeq ['_', '_'] (pre ++ '_' :: '_' :: post) = true := by
  intro pre
  induction pre with
  | nil => simp [containsSeq, List.isPrefixOf]
  | cons c pre ih => simp [containsSeq, ih]

theorem strSubstr_cand (orig : String) (k : Nat) :
    strSubstr "__" (cand orig k) = true := by
  show containsSeq ['_', '_'] (cand orig k).data = true
  have hdata : (cand orig k).data = orig.data ++ '_' :: '_' :: (Nat.repr k).data := by
    simp [cand, String.data_append]
  rw [hdata]
  exact containsSeq_dunder _ orig.data

theorem resolveCollision_ne_substr (orig : String) (seen : List String)
    (h : resolveCollision orig seen ≠ orig) :
    strSubstr "__" (resolveCollision orig seen) = true := by
  rw [resolveCollision] at h ⊢
  by_cases hmem : orig ∈ seen
  · rw [if_pos hmem]
    obtain ⟨j, hj⟩ := resolveFrom_cand orig seen (seen.length + 1) 2
    rw [hj]
    exact strSubstr_cand orig j
  · rw [if_neg hmem] at h
    exact absurd rfl h

/-- Every key the spec counts as collision-suffixed is among the generated
keys and contains `__`. -/
theorem claimedSuffixedKeys_sub (E : List (String × YVal)) (rows : List Row) :
    ∀ seen, ∀ k ∈ claimedSuffixedKeys seen rows,
      k ∈ (buildModelsAux E seen rows).map Prod.fst ∧ strSubstr "__" k = true := by
  induction rows with
  | nil => intro seen k hk; simp [claimedSuffixedKeys] at hk
  | cons r rs ih =>
    intro seen k hk
    simp only [claimedSuffixedKeys, List.mem_append] at hk
    simp only [buildModelsAux, processRow, List.map_cons, List.mem_cons]
    rcases hk with hk | hk
    · by_cases hne : resolveCollision (rowKeyBase r) seen ≠ rowKeyBase r
      · rw [if_pos hne] at hk
        simp only [List.mem_singleton] at hk
        subst hk
        exact ⟨Or.inl rfl, resolveCollision_ne_substr _ _ hne⟩
      · rw [if_neg hne] at hk
        simp at hk
    · obtain ⟨hmem, hsub⟩ := ih (List.insert (resolveCollision (rowKeyBase r) seen) seen) k hk
      exact ⟨Or.inr hmem, hsub⟩

/-- Claim C9 (amended): the summary reports the count of generated entries
(one per loaded row) and lists exactly the generated keys containing the
substring `__`: this includes every key that received a collision suffix,
but can also list keys whose identifier naturally contains `__`; newly
introduced repository references are collected but not reported by this
variant. -/
theorem C9_summary (lines : List String) (cfg : YVal) (out : RunOutput)
    (h : runScript lines cfg = ScriptResult.ok out) :
    ∃ rows, load_csv_rows lines = Except.ok rows ∧
      out.count = rows.length ∧
      (∀ k ∈ claimedSuffixedKeys [] rows, k ∈ out.dupKeys) ∧
      (∀ k ∈ out.dupKeys, strSubstr "__" k = true) := by
  obtain ⟨rows, cfgm, existing, hload, hne, hcfg, hget, hout⟩ := runScript_ok_inv h
  subst hout
  refine ⟨rows, hload, buildModelsAux_length existing rows [], ?_, ?_⟩
  · intro k hk
    obtain ⟨hmem, hsub⟩ := claimedSuffixedKeys_sub existing rows [] k hk
    show k ∈ ((buildModelsAux existing [] rows).map (fun p => p.1)).filter
      (fun k => strSubstr "__" k)
    rw [List.mem_filter]
    exact ⟨hmem, hsub⟩
  · intro k hk
    exact (List.mem_filter.mp hk).2

/-- Witness for C9 (amended) at a concrete input with a real collision. -/
theorem C9_summary_witness :
    ∃ rows, load_csv_rows ["id,repo,applied_ctx_size", "w9,o/w9:Q2,8", "w9,o/w9:Q2,8"] =
        Except.ok rows ∧
      (RunOutput.mk
        (dictSet [("models", YVal.map [])] "models"
          (YVal.map (buildModelsAux [] [] [Row.mk "w9" "o/w9:Q2" 8 "" false,
            Row.mk "w9" "o/w9:Q2" 8 "" false])))
        ((buildModelsAux [] [] [Row.mk "w9" "o/w9:Q2" 8 "" false,
            Row.mk "w9" "o/w9:Q2" 8 "" false]).length)
        (((buildModelsAux [] [] [Row.mk "w9" "o/w9:Q2" 8 "" false,
            Row.mk "w9" "o/w9:Q2" 8 "" false]).map (fun p => p.1)).filter
          (fun k => strSubstr "__" k))).count = rows.length ∧
      (∀ k ∈ claimedSuffixedKeys [] rows, k ∈ (RunOutput.mk
        (dictSet [("models", YVal.map [])] "models"
          (YVal.map (buildModelsAux [] [] [Row.mk "w9" "o/w9:Q2" 8 "" false,
            Row.mk "w9" "o/w9:Q2" 8 "" false])))
        ((buildModelsAux [] [] [Row.mk "w9" "o/w9:Q2" 8 "" false,
            Row.mk "w9" "o/w9:Q2" 8 "" false]).length)
        (((buildModelsAux [] [] [Row.mk "w9" "o/w9:Q2" 8 "" false,
            Row.mk "w9" "o/w9:Q2" 8 "" false]).map (fun p => p.1)).filter
          (fun k => strSubstr "__" k))).dupKeys) ∧
      (∀ k ∈ (RunOutput.mk
        (dictSet [("models", YVal.map [])] "models"
          (YVal.map (buildModelsAux [] [] [Row.mk "w9" "o/w9:Q2" 8 "" false,
            Row.mk "w9" "o/w9:Q2" 8 "" false])))
        ((buildModelsAux [] [] [Row.mk "w9" "o/w9:Q2" 8 "" false,
            Row.mk "w9" "o/w9:Q2" 8 "" false]).length)
        (((buildModelsAux [] [] [Row.mk "w9" "o/w9:Q2" 8 "" false,
            Row.mk "w9" "o/w9:Q2" 8 "" false]).map (fun p => p.1)).filter
          (fun k => strSubstr "__" k))).dupKeys, strSubstr "__" k = true) :=
  C9_summary ["id,repo,applied_ctx_size", "w9,o/w9:Q2,8", "w9,o/w9:Q2,8"]
    (YVal.map [("models", YVal.map [])]) _ rfl

/-! ### Multi-part regex lemmas (for claim C3) -/

theorem takeWhile_digits_append (ds : List Char) (hds : ∀ c ∈ ds, c.isDigit = true) :
    ∀ rest : List Char, (∀ d, rest.head? = some d → d.isDigit = false) →
      (ds ++ rest).takeWhile Char.isDigit = ds ∧
      (ds ++ rest).dropWhile Char.isDigit = rest := by
  induction ds with
  | nil =>
    intro rest hrest
    cases rest with
    | nil => exact ⟨rfl, rfl⟩
    | cons d t =>
      have hd := hrest d rfl
      constructor
      · simp [List.takeWhile_cons, hd]
      · simp [List.dropWhile_cons, hd]
  | cons d ds ih =>
    intro rest hrest
    have hd : d.isDigit = true := hds d (List.mem_cons_self d ds)
    have hih := ih (fun c hc => hds c (List.mem_cons_of_mem d hc)) rest hrest
    constructor
    · simp [List.takeWhile_cons, hd, hih.1]
    · simp [List.dropWhile_cons, hd, hih.2]

theorem matchMultiPart_none (c : Char) (tl : List Char)
    (h : c ≠ '-' ∨ ∀ d, tl.head? = some d → d.isDigit = false) :
    matchMultiPart (c :: tl) = none := by
  rw [matchMultiPart]
  by_cases hc : c = '-'
  · rw [if_pos hc]
    rcases h with h | h
    · exact absurd hc h
    · have hempty : (tl.takeWhile Char.isDigit).isEmpty = true := by
        cases tl with
        | nil => rfl
        | cons d t =>
          have := h d rfl
          simp [List.takeWhile_cons, this]
      rw [if_pos hempty]
  · rw [if_neg hc]

theorem matchMultiPart_seg (ds1 ds2 : List Char) (co cf : Char) (ext : List Char)
    (h1 : ds1 ≠ []) (hd1 : ∀ c ∈ ds1, c.isDigit = true)
    (h2 : ds2 ≠ []) (hd2 : ∀ c ∈ ds2, c.isDigit = true)
    (hco : co = 'o' ∨ co = 'O') (hcf : cf = 'f' ∨ cf = 'F')
    (hext : gExtOk ext) :
    matchMultiPart ('-' :: (ds1 ++ '-' :: co :: cf :: '-' :: (ds2 ++ ext))) = some ext := by
  have hexthead : ∀ d, ext.head? = some d → d.isDigit = false := by
    intro d hd
    rcases hext with he | ⟨g1, g2, u, f4, he, _⟩ <;> subst he
    · simp at hd
    · simp only [List.head?] at hd
      injection hd with hd
      subst hd
      rfl
  have hextdigitfree : ∀ c ∈ ext, c.isDigit = false := by
    intro c hc
    rcases hext with he | ⟨g1, g2, u, f4, he, hg1, hg2, hu, hf4⟩ <;> subst he
    · simp at hc
    · simp only [List.mem_cons, List.not_mem_nil, or_false] at hc
      rcases hc with hc | hc | hc | hc | hc <;> subst hc
      · rfl
      · rcases hg1 with h | h <;> subst h <;> rfl
      · rcases hg2 with h | h <;> subst h <;> rfl
      · rcases hu with h | h <;> subst h <;> rfl
      · rcases hf4 with h | h <;> subst h <;> rfl
  have hlook : ggufLookahead ext = true := by
    rcases hext with he | ⟨g1, g2, u, f4, he, hg1, hg2, hu, hf4⟩ <;> subst he
    · rfl
    · show (g1.toLower = 'g' && g2.toLower = 'g' && u.toLower = 'u' && f4.toLower = 'f') = true
      rcases hg1 with h | h <;> subst h <;>
        rcases hg2 with h | h <;> subst h <;>
        rcases hu with h | h <;> subst h <;>
        rcases hf4 with h | h <;> subst h <;> rfl
  have hsplit1 := takeWhile_digits_append ds1 hd1 ('-' :: co :: cf :: '-' :: (ds2 ++ ext))
    (by intro d hd; injection hd with hd; subst hd; rfl)
  have hsplit2 := takeWhile_digits_append ds2 hd2 ext hexthead
  have hne1 : ds1.isEmpty = false := by cases ds1 with
    | nil => exact absurd rfl h1
    | cons a b => rfl
  have hne2 : ds2.isEmpty = false := by cases ds2 with
    | nil => exact absurd rfl h2
    | cons a b => rfl
  rw [matchMultiPart, if_pos rfl, hsplit1.1, hne1]
  simp only [Bool.false_eq_true, if_false]
  rw [hsplit1.2]
  simp only []
  have hof : (co.toLower = 'o' ∧ cf.toLower = 'f') := by
    constructor
    · rcases hco with h | h <;> subst h <;> rfl
    · rcases hcf with h | h <;> subst h <;> rfl
  rw [if_pos hof, hsplit2.1, hne2]
  simp only [Bool.false_eq_true, if_false]
  rw [hsplit2.2, if_pos hlook]

theorem stripMPAux_nodigit : ∀ (l : List Char), (∀ c ∈ l, c.isDigit = false) →
    ∀ f, stripMPAux f l = l := by
  intro l
  induction l with
  | nil =>
    intro _ f
    cases f <;> rfl
  | cons c rest ih =>
    intro h f
    cases f with
    | zero => rfl
    | succ f =>
      have hnone : matchMultiPart (c :: rest) = none := by
        apply matchMultiPart_none
        right
        intro d hd
        cases rest with
        | nil => simp at hd
        | cons e t =>
          have hde : e = d := by simpa using hd
          exact hde ▸ h e (by simp)
      rw [stripMPAux, hnone]
      rw [ih (fun c2 hc2 => h c2 (List.mem_cons_of_mem c hc2)) f]

theorem stripMPAux_append (rest : List Char)
    (hrest : ∀ d, rest.head? = some d → d.isDigit = false) :
    ∀ (name : List Char), noDashDigit name →
      ∀ f, stripMPAux (name.length + f) (name ++ rest) = name ++ stripMPAux f rest := by
  intro name
  induction name with
  | nil => intro _ f; simp
  | cons c name ih =>
    intro hch f
    have hcc := List.chain'_cons'.mp hch
    have hnone : matchMultiPart (c :: (name ++ rest)) = none := by
      apply matchMultiPart_none
      cases name with
      | nil => exact Or.inr (by simpa using hrest)
      | cons d name2 =>
        by_cases hc : c = '-'
        · right
          intro e he
          have hde : d = e := by simpa using he
          subst hde
          have hP := hcc.1 d (by simp)
          by_cases hdig : d.isDigit = true
          · exact absurd ⟨hc, hdig⟩ hP
          · simpa using hdig
        · exact Or.inl hc
    show stripMPAux ((c :: name).length + f) (c :: (name ++ rest)) = _
    have hlen : (c :: name).length + f = (name.length + f) + 1 := by
      simp [List.length_cons]
      omega
    rw [hlen, stripMPAux, hnone, ih hcc.2 f]
    rfl

/-- Engine of claim C3: on an identifier of the shape
`<name>-<digits>-of-<digits><ext>` — numbering immediately before a
`.gguf`-style extension or the end — the regex scan removes exactly the
numbering segment, provided no `-`-digit adjacency occurs inside `name`
(so the scan cannot fire early inside the name). -/
theorem stripMultiPart_collapse (name ds1 ds2 : List Char) (co cf : Char) (ext : List Char)
    (hch : noDashDigit name)
    (h1 : ds1 ≠ []) (hd1 : ∀ c ∈ ds1, c.isDigit = true)
    (h2 : ds2 ≠ []) (hd2 : ∀ c ∈ ds2, c.isDigit = true)
    (hco : co = 'o' ∨ co = 'O') (hcf : cf = 'f' ∨ cf = 'F')
    (hext : gExtOk ext) :
    stripMultiPart (String.mk (name ++ '-' :: (ds1 ++ '-' :: co :: cf :: '-' :: (ds2 ++ ext)))) =
      String.mk (name ++ ext) := by
  have hextdigitfree : ∀ c ∈ ext, c.isDigit = false := by
    intro c hc
    rcases hext with he | ⟨g1, g2, u, f4, he, hg1, hg2, hu, hf4⟩ <;> subst he
    · simp at hc
    · simp only [List.mem_cons, List.not_mem_nil, or_false] at hc
      rcases hc with hc | hc | hc | hc | hc <;> subst hc
      · rfl
      · rcases hg1 with h | h <;> subst h <;> rfl
      · rcases hg2 with h | h <;> subst h <;> rfl
      · rcases hu with h | h <;> subst h <;> rfl
      · rcases hf4 with h | h <;> subst h <;> rfl
  unfold stripMultiPart
  congr 1
  show stripMPAux (name ++ '-' :: (ds1 ++ '-' :: co :: cf :: '-' :: (ds2 ++ ext))).length
      (name ++ '-' :: (ds1 ++ '-' :: co :: cf :: '-' :: (ds2 ++ ext))) = name ++ ext
  rw [List.length_append]
  rw [stripMPAux_append ('-' :: (ds1 ++ '-' :: co :: cf :: '-' :: (ds2 ++ ext)))
    (by intro d hd; injection hd with hd; subst hd; rfl) name hch]
  congr 1
  show stripMPAux ((ds1 ++ '-' :: co :: cf :: '-' :: (ds2 ++ ext)).length + 1)
      ('-' :: (ds1 ++ '-' :: co :: cf :: '-' :: (ds2 ++ ext))) = ext
  rw [stripMPAux, matchMultiPart_seg ds1 ds2 co cf ext h1 hd1 h2 hd2 hco hcf hext]
  exact stripMPAux_nodigit ext hextdigitfree _

/-- Claim C3: identifiers matching the `<name>-<NNNNN>-of-<NNNNN>` numbering
convention (case-insensitive, immediately before a `.gguf`-style extension
or the end) collapse to the shared base: the scan strips the numbering
segment (general statement, for names without an inner `-`-digit adjacency),
the derived key then also strips the trailing `.gguf`, and the claim's two
example identifiers produce the keys `part` and `part__2`, in that order. -/
theorem C3_multipart_collapse :
    (∀ (name ds1 ds2 : List Char) (co cf : Char) (ext : List Char),
      noDashDigit name → ds1 ≠ [] → (∀ c ∈ ds1, c.isDigit = true) →
      ds2 ≠ [] → (∀ c ∈ ds2, c.isDigit = true) →
      (co = 'o' ∨ co = 'O') → (cf = 'f' ∨ cf = 'F') → gExtOk ext →
      stripMultiPart (String.mk (name ++ '-' :: (ds1 ++ '-' :: co :: cf :: '-' :: (ds2 ++ ext)))) =
        String.mk (name ++ ext)) ∧
    rowKeyBase (Row.mk "part-00001-of-00003.gguf" "o/r:Q4" 100 "" false) = "part" ∧
    (buildModelsAux [] [] [Row.mk "part-00001-of-00003.gguf" "o/r:Q4" 100 "" false,
        Row.mk "part-00002-of-00003.gguf" "o/r:Q4" 100 "" false]).map Prod.fst =
      ["part", "part__2"] := by
  refine ⟨?_, rfl, rfl⟩
  intro name ds1 ds2 co cf ext hch h1 hd1 h2 hd2 hco hcf hext
  exact stripMultiPart_collapse name ds1 ds2 co cf ext hch h1 hd1 h2 hd2 hco hcf hext

/-- Witness for C3 at the claim's concrete instance
`part-00001-of-00003.gguf`. -/
theorem C3_multipart_collapse_witness :
    stripMultiPart (String.mk (['p', 'a', 'r', 't'] ++ '-' ::
        (['0', '0', '0', '0', '1'] ++ '-' :: 'o' :: 'f' :: '-' ::
          (['0', '0', '0', '0', '3'] ++ ['.', 'g', 'g', 'u', 'f'])))) =
      String.mk (['p', 'a', 'r', 't'] ++ ['.', 'g', 'g', 'u', 'f']) :=
  C3_multipart_collapse.1 ['p', 'a', 'r', 't'] ['0', '0', '0', '0', '1']
    ['0', '0', '0', '0', '3'] 'o' 'f' ['.', 'g', 'g', 'u', 'f']
    (by constructor <;> simp) (by decide) (by decide) (by decide) (by decide)
    (Or.inl rfl) (Or.inl rfl)
    (Or.inr ⟨'g', 'g', 'u', 'f', rfl, Or.inl rfl, Or.inl rfl, Or.inl rfl, Or.inl rfl⟩)

end LlamaSwap
